import Mathlib

/-!
# Verification of the EmbeddingVisualizer backend service layer

Shallow embedding of `backend/services/embedding_service.py`,
`backend/services/dimensionality.py` and the routers
`backend/routers/similarity.py`, `backend/routers/embeddings.py`.

Modelling conventions:
* Python floats are modelled as rationals (`ℚ`); the numerical routines that
  the services merely orchestrate (sklearn `cosine_similarity`, `PCA`, `TSNE`)
  are abstracted as function parameters, since every claim under verification
  concerns the orchestration logic (ranking, selection, caching, error flow)
  and holds for every value those routines may return.
* Python `dict`s are modelled as association lists; a word→index vocabulary
  together with its inverse `idx_to_word` dictionary is modelled as the list
  of words in index order (the spec's data model: a bidirectional mapping with
  dense contiguous indices starting at 0).
* `numpy.argsort` (default kind) is modelled as a stable ascending sort, which
  is the deterministic behaviour numpy exhibits on the small arrays used here
  (its quicksort falls back to a stable insertion sort below 16 elements).
-/

namespace EmbeddingVisualizer

/-! ### Python string helpers -/

/-- Model of Python `str.lower()`: lowercase every character. -/
def pyLower (s : String) : String :=
  ⟨s.data.map Char.toLower⟩

/-- Model of Python `str.strip()`: drop whitespace from both ends. -/
def pyStrip (s : String) : String :=
  ⟨((s.data.dropWhile Char.isWhitespace).reverse.dropWhile Char.isWhitespace).reverse⟩

/-- The normalization `word.lower().strip()` applied by every word lookup
(`embedding_service.py` lines 34, 85, 147). -/
def pyNormalize (s : String) : String :=
  pyStrip (pyLower s)

/-! ### Data model (`backend/services/model_loader.py`) -/

/-- The TF-IDF artifacts: `_tfidf_vocab : Dict[str, int]` together with the
inverted `_tfidf_idx_to_word` dictionary, represented as the list of words in
row-index order, and `_tfidf_embeddings`, the embedding matrix, one row per
vocabulary index. -/
structure TfidfModel where
  words : List String
  rows : List (List ℚ)

/-- A gensim `Word2Vec` model as the services use it: the key set of
`model.wv`, the vector lookup `model.wv[w]`, and the built-in neighbor search
`model.wv.most_similar(w, topn)`.  The two latter are opaque third-party
routines, hence function fields. -/
structure W2VModel where
  keys : List String
  vecs : String → List ℚ
  mostSimilar : String → Nat → List (String × ℚ)

/-- Everything `model_loader` serves to the two services, plus the abstracted
`sklearn.metrics.pairwise.cosine_similarity` applied to (query row, candidate
row).  `freqs` is the `word_frequencies` dictionary. -/
structure Models where
  tfidf : TfidfModel
  cbow : W2VModel
  skipgram : W2VModel
  freqs : List (String × Nat)
  cosSim : List ℚ → List ℚ → ℚ

/-- Model of `frequencies.get(w, 0)` (`embedding_service.py` lines 199, 217;
`dimensionality.py` line 151). -/
def freqGet (M : Models) (w : String) : Nat :=
  (M.freqs.lookup w).getD 0

/-- The valid model selectors, `MODEL_TYPES.keys()` from `backend/config.py`. -/
def modelTypeKeys : List String :=
  ["tfidf", "word2vec_cbow", "word2vec_skipgram"]

/-! ### Similarity engine (`embedding_service.py`) -/

/-- Model of `similarities.argsort()`: the indices `0 .. n-1` sorted so that the
similarity values are ascending (stable; see the header note on numpy). -/
def argsortAsc (sims : List ℚ) : List Nat :=
  List.insertionSort (fun i j => sims.getD i 0 ≤ sims.getD j 0) (List.range sims.length)

/-- The result-collection loop of `get_similar_words_tfidf`
(`embedding_service.py` lines 53-61): walk `top_indices`, stop once `topn`
results are collected, skip the query row, emit `(idx_to_word[idx],
similarities[idx])`.  The first argument of the recursion is the remaining
budget `topn - len(results)`. -/
def buildResults (m : TfidfModel) (sims : List ℚ) (wordIdx : Nat) :
    Nat → List Nat → List (String × ℚ)
  | _, [] => []
  | remaining, idx :: rest =>
    if remaining = 0 then []
    else if idx = wordIdx then buildResults m sims wordIdx remaining rest
    else (m.words.getD idx "", sims.getD idx 0) :: buildResults m sims wordIdx (remaining - 1) rest

/-- Translation of `EmbeddingService.get_similar_words_tfidf` (`embedding_service.py`
lines 23-66).  Returns `(similar_words, in_vocabulary, error_message)`. -/
def get_similar_words_tfidf (M : Models) (word : String) (topn : Nat) :
    List (String × ℚ) × Bool × Option String :=
  let w := pyNormalize word
  if w ∈ M.tfidf.words then
    let wordIdx := M.tfidf.words.indexOf w
    let similarities := M.tfidf.rows.map (M.cosSim (M.tfidf.rows.getD wordIdx []))
    let topIndices := (argsortAsc similarities).reverse
    (buildResults M.tfidf similarities wordIdx topn topIndices, true, none)
  else
    ([], false, some ("Word \x27" ++ w ++ "\x27 not found in TF-IDF vocabulary"))

/-- Translation of `EmbeddingService.get_similar_words_word2vec` (`embedding_service.py`
lines 68-106). -/
def get_similar_words_word2vec (M : Models) (word : String) (model_type : String)
    (topn : Nat) : List (String × ℚ) × Bool × Option String :=
  let w := pyNormalize word
  if model_type = "word2vec_cbow" ∨ model_type = "word2vec_skipgram" then
    let model := if model_type = "word2vec_cbow" then M.cbow else M.skipgram
    if w ∈ model.keys then
      (model.mostSimilar w topn, true, none)
    else
      ([], false, some ("Word \x27" ++ w ++ "\x27 not found in " ++ model_type ++ " vocabulary"))
  else
    ([], false, some ("Unknown model type: " ++ model_type))

/-- Translation of `EmbeddingService.get_similar_words` (`embedding_service.py`
lines 108-130): dispatch on the model selector. -/
def get_similar_words (M : Models) (word : String) (model_type : String) (topn : Nat) :
    List (String × ℚ) × Bool × Option String :=
  if model_type = "tfidf" then
    get_similar_words_tfidf M word topn
  else if model_type = "word2vec_cbow" ∨ model_type = "word2vec_skipgram" then
    get_similar_words_word2vec M word model_type topn
  else
    ([], false, some ("Unknown model type: " ++ model_type))

/-- Translation of `EmbeddingService.get_word_vector` (`embedding_service.py` lines 132-175). -/
def get_word_vector (M : Models) (word : String) (model_type : String) :
    Option (List ℚ) :=
  let w := pyNormalize word
  if model_type = "tfidf" then
    if w ∈ M.tfidf.words then
      some (M.tfidf.rows.getD (M.tfidf.words.indexOf w) [])
    else none
  else if model_type = "word2vec_cbow" then
    if w ∈ M.cbow.keys then some (M.cbow.vecs w) else none
  else if model_type = "word2vec_skipgram" then
    if w ∈ M.skipgram.keys then some (M.skipgram.vecs w) else none
  else none

/-! ### Reduction engine (`backend/services/dimensionality.py`) -/

/-- A cached value: `(2D coordinates, word list, frequency list)`. -/
abbrev VizResult := List (ℚ × ℚ) × List String × List Nat

/-- The reduction cache `self._cache`, an association list keyed by the cache
key string. -/
abbrev RCache := List (String × VizResult)

/-- Translation of `DimensionalityReductionService._get_cache_key` (`dimensionality.py`
lines 30-39): the key string `f"{model_type}_{method}_{num_words}_{perplexity}"`.
The code stores `hashlib.md5(key_str.encode()).hexdigest()` in the dict; since
equal key strings produce equal digests, the digest step is modelled as the
identity on key strings (md5 collisions between distinct key strings are
outside the model). -/
def get_cache_key (model_type method : String) (num_words : Nat) (perplexity : Int) :
    String :=
  model_type ++ "_" ++ method ++ "_" ++ toString num_words ++ "_" ++ toString perplexity

/-- Python dict assignment `self._cache[key] = value`: replace any existing
binding for `key`, otherwise add one. -/
def cacheInsert (cache : RCache) (key : String) (v : VizResult) : RCache :=
  (key, v) :: cache.filter (fun p => p.1 ≠ key)

/-- The perplexity clamp of `reduce_tsne` (`dimensionality.py` line 84):
`adjusted_perplexity = min(perplexity, max(5, (n_samples - 1) // 3))`.
Python `//` is floor division, hence `Int.fdiv`. -/
def adjusted_perplexity (perplexity : Int) (n_samples : Nat) : Int :=
  min perplexity (max 5 (((n_samples : Int) - 1).fdiv 3))

/-- Translation of `DimensionalityReductionService.reduce_tsne` (`dimensionality.py`
lines 65-104).  `tsneFn` abstracts the sklearn `TSNE(...).fit_transform` call,
taking the embedding matrix and the (clamped) perplexity; `none` models the
exception path, on which the code falls back to PCA (`pcaFn`, abstracting
`reduce_pca`). -/
def reduce_tsne (tsneFn : List (List ℚ) → Int → Option (List (ℚ × ℚ)))
    (pcaFn : List (List ℚ) → List (ℚ × ℚ))
    (embeddings : List (List ℚ)) (perplexity : Int) : List (ℚ × ℚ) :=
  match tsneFn embeddings (adjusted_perplexity perplexity embeddings.length) with
  | some reduced => reduced
  | none => pcaFn embeddings

/-- The frequency-ranking step shared by both branches of
`EmbeddingService.get_all_embeddings` (`embedding_service.py` lines 199-200 and
217-218): pair every vocabulary word with `frequencies.get(w, 0)` and sort by
descending frequency.  Python `list.sort(key=..., reverse=True)` is stable and
does not reverse equal elements, which is exactly insertion sort on the
relation `b.2 ≤ a.2`. -/
def rankByFreq (M : Models) (ws : List String) : List (String × Nat) :=
  List.insertionSort (fun a b => b.2 ≤ a.2) (ws.map (fun w => (w, freqGet M w)))

/-- Translation of `EmbeddingService.get_all_embeddings` (`embedding_service.py`
lines 177-226): embeddings and words for the top `num_words` most frequent
vocabulary words. -/
def get_all_embeddings (M : Models) (model_type : String) (num_words : Nat) :
    List (List ℚ) × List String :=
  if model_type = "tfidf" then
    let top_words := ((rankByFreq M M.tfidf.words).take num_words).map Prod.fst
    let selected := top_words.map (fun w => M.tfidf.rows.getD (M.tfidf.words.indexOf w) [])
    (selected, top_words)
  else if model_type = "word2vec_cbow" ∨ model_type = "word2vec_skipgram" then
    let model := if model_type = "word2vec_cbow" then M.cbow else M.skipgram
    let top_words := ((rankByFreq M model.keys).take num_words).map Prod.fst
    (top_words.map model.vecs, top_words)
  else
    ([], [])

/-- Translation of `DimensionalityReductionService.get_reduced_embeddings` (`dimensionality.py`
lines 106-157), in explicit state-passing form.  Returns the
`(coordinates, words, frequencies)` tuple, the updated cache, and an
instrumentation flag recording whether a reduction was computed (the spec's
"side-effect counter on the underlying projection call").  The `ValueError`
raised for an unknown method is the `Except.error` case. -/
def get_reduced_embeddings (M : Models)
    (tsneFn : List (List ℚ) → Int → Option (List (ℚ × ℚ)))
    (pcaFn : List (List ℚ) → List (ℚ × ℚ))
    (cache : RCache) (model_type method : String) (num_words : Nat)
    (perplexity : Int) (use_cache : Bool) :
    Except String (VizResult × RCache × Bool) :=
  let key := get_cache_key model_type method num_words perplexity
  match (if use_cache then cache.lookup key else none) with
  | some cached => .ok (cached, cache, false)
  | none =>
    let ew := get_all_embeddings M model_type num_words
    let embeddings := ew.1
    let words := ew.2
    if words.length = 0 then
      .ok (([], [], []), cache, false)
    else
      match (if method = "pca" then some (pcaFn embeddings)
             else if method = "tsne" then some (reduce_tsne tsneFn pcaFn embeddings perplexity)
             else none) with
      | none => .error ("Unknown reduction method: " ++ method)
      | some reduced =>
        let word_freqs := words.map (freqGet M)
        let result : VizResult := (reduced, words, word_freqs)
        .ok (result, cacheInsert cache key result, true)

/-- Translation of `DimensionalityReductionService.get_word_neighborhood` (`dimensionality.py`
lines 159-217): the query word plus its nearest neighbors, reduced to 2D.
The vector-collection loop (lines 197-202) keeps, in order, the entries of
`zip(words, similarities)` whose word has a retrievable vector. -/
def get_word_neighborhood (M : Models)
    (tsneFn : List (List ℚ) → Int → Option (List (ℚ × ℚ)))
    (pcaFn : List (List ℚ) → List (ℚ × ℚ))
    (word model_type method : String) (num_neighbors : Nat) (perplexity : Int) :
    List (ℚ × ℚ) × List String × List ℚ :=
  let swr := get_similar_words M word model_type num_neighbors
  let similar_words := swr.1
  let in_vocab := swr.2.1
  if in_vocab = false then
    ([], [], [])
  else
    let words := word :: similar_words.map Prod.fst
    let similarities := (1 : ℚ) :: similar_words.map Prod.snd
    let valid := (words.zip similarities).filterMap
      (fun ws => (get_word_vector M ws.1 model_type).map (fun v => (v, ws.1, ws.2)))
    if valid.length < 2 then
      ([], [], [])
    else
      let embeddings := valid.map (fun t => t.1)
      let reduced :=
        if method = "pca" then pcaFn embeddings
        else reduce_tsne tsneFn pcaFn embeddings
          (min perplexity (max 2 ((valid.length : Int).fdiv 3)))
      (reduced, valid.map (fun t => t.2.1), valid.map (fun t => t.2.2))

/-- Translation of `DimensionalityReductionService.clear_cache` (`dimensionality.py`
lines 219-222). -/
def clear_cache (_cache : RCache) : RCache :=
  []

/-! ### Routers (`backend/routers/similarity.py`, `backend/routers/embeddings.py`) -/

/-- Round half to even at integer precision (Python's `round` tie rule),
computed on the numerator and denominator: with `fl = ⌊q⌋` and remainder
`r = num - fl * den ∈ [0, den)`, the fractional part `r / den` is compared
against `1/2` by comparing `2r` against `den`. -/
def roundHalfEven (q : ℚ) : ℤ :=
  let fl := q.num.fdiv q.den
  let r := q.num - fl * q.den
  if 2 * r < (q.den : ℤ) then fl
  else if (q.den : ℤ) < 2 * r then fl + 1
  else if fl % 2 = 0 then fl else fl + 1

/-- Python `round(x, 4)` as the routers apply it to similarity scores,
modelled as ideal half-to-even rounding of the rational score to four decimal
places (the float representation itself is abstracted away). -/
def round4 (q : ℚ) : ℚ :=
  Rat.divInt (roundHalfEven (q * 10000)) 10000

/-- One element of the `results` list built by the batch endpoint
(`similarity.py` lines 101-106). -/
structure BatchItem where
  query_word : String
  similar_words : List (String × ℚ)
  in_vocabulary : Bool
  message : Option String
deriving DecidableEq

/-- The per-word body of the loop in `get_similar_words_batch`
(`similarity.py` lines 97-106). -/
def batch_item (M : Models) (model_type : String) (topn : Nat) (word : String) :
    BatchItem :=
  let r := get_similar_words M word model_type topn
  { query_word := pyNormalize word
    similar_words := r.1.map (fun p => (p.1, round4 p.2))
    in_vocabulary := r.2.1
    message := r.2.2 }

/-- Translation of `POST /similarity/batch` (`similarity.py` lines 70-108).  An
`HTTPException(status, detail)` is the `Except.error` case. -/
def get_similar_words_batch (M : Models) (words : List String)
    (model_type : String) (topn : Nat) :
    Except (Nat × String) (String × List BatchItem) :=
  if model_type ∉ modelTypeKeys then
    .error (400, "Invalid model type. Available: [\x27tfidf\x27, \x27word2vec_cbow\x27, \x27word2vec_skipgram\x27]")
  else if words.length > 20 then
    .error (400, "Maximum 20 words per batch")
  else
    .ok (model_type, words.map (batch_item M model_type topn))

/-- One point of the neighborhood endpoint response
(`embeddings.py` lines 142-150). -/
structure NPoint where
  word : String
  x : ℚ
  y : ℚ
  similarity : ℚ
  is_query : Bool
deriving DecidableEq

/-- The response body of the neighborhood endpoint
(`embeddings.py` lines 152-157). -/
structure NBody where
  query_word : String
  model_type : String
  reduction_method : String
  points : List NPoint
deriving DecidableEq

/-- The point-building loop of the neighborhood endpoint (`embeddings.py`
lines 142-150): `enumerate(zip(words, similarities))` with
`x, y = reduced[i]`, `similarity = round(sim, 4)` and
`is_query = (w == word.lower().strip())`. -/
def neighborhood_points (reduced : List (ℚ × ℚ)) (words : List String)
    (sims : List ℚ) (query : String) : List NPoint :=
  (words.zip sims).mapIdx (fun i ws =>
    { word := ws.1
      x := (reduced.getD i (0, 0)).1
      y := (reduced.getD i (0, 0)).2
      similarity := round4 ws.2
      is_query := ws.1 == pyNormalize query })

/-- The exceptions that can leave the `try` block of the neighborhood
endpoint.  FastAPI's `HTTPException` subclasses `Exception`, so it is caught
by the handler's own `except Exception` clause; Starlette renders it as
`f"{status_code}: {detail}"`. -/
inductive PyExc where
  | httpException (status : Nat) (detail : String)
deriving DecidableEq

/-- Python `str(e)` for the exceptions modelled above. -/
def strOfExc : PyExc → String
  | .httpException status detail => toString status ++ ": " ++ detail

/-- The response of an endpoint: a JSON body or an HTTP error status with a
detail string. -/
inductive HttpResp where
  | ok (body : NBody)
  | err (status : Nat) (detail : String)
deriving DecidableEq

/-- The `try` block of `get_word_neighborhood` in the router
(`embeddings.py` lines 127-157): call the service, raise
`HTTPException(404, ...)` when it produced no words, otherwise build the
body. -/
def neighborhood_try_body (M : Models)
    (tsneFn : List (List ℚ) → Int → Option (List (ℚ × ℚ)))
    (pcaFn : List (List ℚ) → List (ℚ × ℚ))
    (model_type word method : String) (num_neighbors : Nat) (perplexity : Int) :
    Except PyExc NBody :=
  let r := get_word_neighborhood M tsneFn pcaFn word model_type method num_neighbors perplexity
  let reduced := r.1
  let words := r.2.1
  let similarities := r.2.2
  if words.length = 0 then
    .error (.httpException 404 ("Word \x27" ++ word ++ "\x27 not found in vocabulary"))
  else
    .ok { query_word := pyNormalize word
          model_type := model_type
          reduction_method := method
          points := neighborhood_points reduced words similarities word }

/-- Translation of `GET /embeddings/\x7bmodel_type\x7d/neighborhood/\x7bword\x7d` (`embeddings.py`
lines 103-163).  The `except Exception as e` clause catches every exception
raised inside the `try` block — including the `HTTPException(404)` the block
itself raises — and re-raises it as
`HTTPException(500, f"Error generating neighborhood: {str(e)}")`. -/
def get_word_neighborhood_endpoint (M : Models)
    (tsneFn : List (List ℚ) → Int → Option (List (ℚ × ℚ)))
    (pcaFn : List (List ℚ) → List (ℚ × ℚ))
    (model_type word method : String) (num_neighbors : Nat) (perplexity : Int) :
    HttpResp :=
  if model_type ∉ modelTypeKeys then
    .err 400 "Invalid model type. Available: [\x27tfidf\x27, \x27word2vec_cbow\x27, \x27word2vec_skipgram\x27]"
  else
    match neighborhood_try_body M tsneFn pcaFn model_type word method num_neighbors perplexity with
    | .ok body => .ok body
    | .error e => .err 500 ("Error generating neighborhood: " ++ strOfExc e)

/-! ### Decimal rendering

The cache key embeds `num_words` and `perplexity` through `toString`.  To
reason about key collisions we characterise `Nat.repr` by a structural
digit-list function and prove that rendering is injective and never produces
an underscore. -/

/-- The decimal digit list of a natural number, most significant first;
structural counterpart of `Nat.toDigits 10`. -/
def digs (n : Nat) : List Char :=
  if _h : n < 10 then [Nat.digitChar n]
  else digs (n / 10) ++ [Nat.digitChar (n % 10)]
termination_by n
decreasing_by exact Nat.div_lt_self (by omega) (by omega)

theorem toDigitsCore_eq_digs (fuel : Nat) :
    ∀ (n : Nat) (acc : List Char), n < fuel →
      Nat.toDigitsCore 10 fuel n acc = digs n ++ acc := by
  induction fuel with
  | zero => omega
  | succ fuel ih =>
    intro n acc h
    rw [Nat.toDigitsCore]
    by_cases h10 : n / 10 = 0
    · have hn : n < 10 := by omega
      rw [digs]
      simp only [h10, if_pos rfl, dif_pos hn, Nat.mod_eq_of_lt hn]
      simp
    · have hlt : n / 10 < fuel := by omega
      have hn : ¬n < 10 := by omega
      simp only [h10, if_neg h10, ih (n / 10) _ hlt]
      conv_rhs => rw [digs]
      simp [hn, List.append_assoc]

/-- Characterisation: `Nat.repr` is exactly the digit list `digs`. -/
theorem repr_data (n : Nat) : (Nat.repr n).data = digs n := by
  show (Nat.toDigits 10 n).asString.data = digs n
  rw [Nat.toDigits, toDigitsCore_eq_digs (n + 1) n [] (by omega)]
  simp [List.asString]

theorem digitChar_isDigit {n : Nat} (h : n < 10) : (Nat.digitChar n).isDigit := by
  interval_cases n <;> decide

theorem digs_digits (n : Nat) : ∀ c ∈ digs n, c.isDigit := by
  induction n using Nat.strong_induction_on with
  | _ n ih =>
    rw [digs]
    split
    · intro c hc
      rw [List.mem_singleton] at hc
      exact hc ▸ digitChar_isDigit (by omega)
    · intro c hc
      rcases List.mem_append.mp hc with h1 | h2
      · exact ih (n / 10) (Nat.div_lt_self (by omega) (by omega)) c h1
      · rw [List.mem_singleton] at h2
        exact h2 ▸ digitChar_isDigit (Nat.mod_lt _ (by omega))

theorem digs_ne_nil (n : Nat) : digs n ≠ [] := by
  rw [digs]
  split <;> simp

/-- Digit value of a character, inverse of `Nat.digitChar` below 10. -/
def digitVal (c : Char) : Nat := c.toNat - 48

/-- Evaluate a digit list back to the number it renders. -/
def valOfDigits (l : List Char) : Nat :=
  l.foldl (fun a c => 10 * a + digitVal c) 0

theorem valOfDigits_append (l : List Char) (c : Char) :
    valOfDigits (l ++ [c]) = 10 * valOfDigits l + digitVal c := by
  simp [valOfDigits, List.foldl_append]

theorem digitVal_digitChar {n : Nat} (h : n < 10) : digitVal (Nat.digitChar n) = n := by
  interval_cases n <;> decide

theorem valOfDigits_digs (n : Nat) : valOfDigits (digs n) = n := by
  induction n using Nat.strong_induction_on with
  | _ n ih =>
    rw [digs]
    split
    · next hlt => simp [valOfDigits, digitVal_digitChar hlt]
    · next hlt =>
        rw [valOfDigits_append, ih (n / 10) (Nat.div_lt_self (by omega) (by omega)),
          digitVal_digitChar (Nat.mod_lt _ (by omega))]
        omega

theorem digs_injective {a b : Nat} (h : digs a = digs b) : a = b := by
  have ha := valOfDigits_digs a
  rw [h, valOfDigits_digs b] at ha
  omega

theorem isDigit_ne_underscore {c : Char} (h : c.isDigit) : c ≠ '_' := by
  rintro rfl
  exact absurd h (by decide)

theorem isDigit_ne_dash {c : Char} (h : c.isDigit) : c ≠ '-' := by
  rintro rfl
  exact absurd h (by decide)

theorem nat_repr_no_underscore (n : Nat) : '_' ∉ (Nat.repr n).data := by
  rw [repr_data]
  intro hmem
  exact isDigit_ne_underscore (digs_digits n _ hmem) rfl

theorem nat_repr_injective {a b : Nat} (h : Nat.repr a = Nat.repr b) : a = b := by
  have : (Nat.repr a).data = (Nat.repr b).data := by rw [h]
  rw [repr_data, repr_data] at this
  exact digs_injective this

theorem int_repr_no_underscore (i : Int) : '_' ∉ (Int.repr i).data := by
  cases i with
  | ofNat m => exact nat_repr_no_underscore m
  | negSucc m =>
    show '_' ∉ ("-" ++ Nat.repr (m + 1)).data
    rw [String.data_append]
    intro hmem
    rcases List.mem_append.mp hmem with h1 | h2
    · simp at h1
    · exact nat_repr_no_underscore (m + 1) h2

theorem int_repr_injective {a b : Int} (h : Int.repr a = Int.repr b) : a = b := by
  have hd : (Int.repr a).data = (Int.repr b).data := by rw [h]
  cases a with
  | ofNat m =>
    cases b with
    | ofNat k =>
      have : Nat.repr m = Nat.repr k := h
      rw [nat_repr_injective this]
    | negSucc k =>
      exfalso
      have : (Nat.repr m).data = ("-" ++ Nat.repr (k + 1)).data := hd
      rw [repr_data, String.data_append] at this
      have hdash : '-' ∈ digs m := by
        rw [this]
        simp
      exact isDigit_ne_dash (digs_digits m _ hdash) rfl
  | negSucc m =>
    cases b with
    | ofNat k =>
      exfalso
      have : ("-" ++ Nat.repr (m + 1)).data = (Nat.repr k).data := hd
      rw [repr_data, String.data_append] at this
      have hdash : '-' ∈ digs k := by
        rw [← this]
        simp
      exact isDigit_ne_dash (digs_digits k _ hdash) rfl
    | negSucc k =>
      have : ("-" ++ Nat.repr (m + 1)).data = ("-" ++ Nat.repr (k + 1)).data := hd
      rw [String.data_append, String.data_append, repr_data, repr_data] at this
      simp only [List.cons_append, List.nil_append, List.cons.injEq, true_and] at this
      have hmk := digs_injective (by simpa using this)
      have : m = k := by omega
      rw [this]

/-- Splitting a separator-joined pair of underscore-free segments is
unambiguous. -/
theorem sep_split {a r : List Char} (ha : '_' ∉ a) :
    ∀ {a' r' : List Char}, '_' ∉ a' →
      a ++ '_' :: r = a' ++ '_' :: r' → a = a' ∧ r = r' := by
  induction a with
  | nil =>
    intro a' r' ha' h
    cases a' with
    | nil => simpa using h
    | cons c t =>
      exfalso
      simp only [List.nil_append, List.cons_append, List.cons.injEq] at h
      exact ha' (h.1 ▸ List.mem_cons_self c t)
  | cons c t ih =>
    intro a' r' ha' h
    cases a' with
    | nil =>
      exfalso
      simp only [List.cons_append, List.nil_append, List.cons.injEq] at h
      exact ha (h.1 ▸ List.mem_cons_self c t)
    | cons c' t' =>
      simp only [List.cons_append, List.cons.injEq] at h
      obtain ⟨rfl, h2⟩ := h
      have ht : '_' ∉ t := fun hm => ha (List.mem_cons_of_mem _ hm)
      have ht' : '_' ∉ t' := fun hm => ha' (List.mem_cons_of_mem _ hm)
      obtain ⟨rfl, hr⟩ := ih ht ht' h2
      exact ⟨rfl, hr⟩

/-! ### Properties of the TF-IDF ranking pipeline -/

/-- The collection loop equals: keep the non-query indices in ranked order,
truncate to the budget, and read off word and score. -/
theorem buildResults_eq (m : TfidfModel) (sims : List ℚ) (w : Nat) (order : List Nat) :
    ∀ n, buildResults m sims w n order =
      ((order.filter (fun i => i ≠ w)).take n).map
        (fun i => (m.words.getD i "", sims.getD i 0)) := by
  induction order with
  | nil => intro n; simp [buildResults]
  | cons idx rest ih =>
    intro n
    simp only [buildResults]
    by_cases hn : n = 0
    · subst hn; simp
    · rw [if_neg hn]
      by_cases hi : idx = w
      · subst hi
        rw [if_pos rfl, List.filter_cons_of_neg (by simp), ih n]
      · rw [if_neg hi, List.filter_cons_of_pos (by simp [hi])]
        cases n with
        | zero => omega
        | succ k =>
          rw [List.take_succ_cons, List.map_cons, Nat.succ_sub_one, ih k]

theorem argsortAsc_sorted (sims : List ℚ) :
    (argsortAsc sims).Sorted (fun i j => sims.getD i 0 ≤ sims.getD j 0) := by
  haveI : IsTotal Nat (fun i j => sims.getD i 0 ≤ sims.getD j 0) :=
    ⟨fun a b => le_total _ _⟩
  haveI : IsTrans Nat (fun i j => sims.getD i 0 ≤ sims.getD j 0) :=
    ⟨fun a b c h1 h2 => le_trans h1 h2⟩
  exact List.sorted_insertionSort _ _

theorem mem_argsortAsc {sims : List ℚ} {i : Nat} (h : i ∈ argsortAsc sims) :
    i < sims.length := by
  rw [argsortAsc, List.mem_insertionSort, List.mem_range] at h
  exact h

/-- Stability of the ranking: two candidates with equal similarity scores
appear in `top_indices = similarities.argsort()[::-1]` with the LARGER
original index first (the stable ascending sort keeps the smaller index
first, and the reversal flips the equal-score group). -/
theorem argsort_reverse_tie_larger_index_first {sims : List ℚ} {i j : Nat}
    (hij : i < j) (hj : j < sims.length)
    (heq : sims.getD i 0 = sims.getD j 0) :
    List.Sublist [j, i] (argsortAsc sims).reverse := by
  have hpair : List.Sublist [i, j] (List.range sims.length) := by
    have h1 : List.Sublist [i] (List.range j) :=
      List.singleton_sublist.mpr (List.mem_range.mpr hij)
    have h2 : List.Sublist ([i] ++ [j]) (List.range j ++ [j]) :=
      h1.append (List.Sublist.refl [j])
    rw [← List.range_succ] at h2
    exact h2.trans (List.range_sublist.mpr hj)
  haveI : IsTotal Nat (fun i j => sims.getD i 0 ≤ sims.getD j 0) :=
    ⟨fun a b => le_total _ _⟩
  haveI : IsTrans Nat (fun i j => sims.getD i 0 ≤ sims.getD j 0) :=
    ⟨fun a b c h1 h2 => le_trans h1 h2⟩
  have hstable := @List.pair_sublist_insertionSort Nat
    (fun a b => sims.getD a 0 ≤ sims.getD b 0) (fun _ _ => inferInstance)
    i j (List.range sims.length) (le_of_eq heq) hpair
  have := hstable.reverse
  simpa [argsortAsc] using this

/-- Core properties of the ranked selection: at most `topn` results, the query
row is excluded, and scores follow the descending ranking. -/
theorem ranked_selection_props (m : TfidfModel) (sims : List ℚ) (wi topn : Nat)
    (hlen : sims.length = m.words.length) (hnodup : m.words.Nodup)
    (hwi : wi < m.words.length) :
    (buildResults m sims wi topn ((argsortAsc sims).reverse)).length ≤ topn ∧
    (∀ p ∈ buildResults m sims wi topn ((argsortAsc sims).reverse),
        p.1 ≠ m.words.getD wi "") ∧
    ((buildResults m sims wi topn ((argsortAsc sims).reverse)).map Prod.snd).Sorted
      (fun a b => b ≤ a) := by
  rw [buildResults_eq]
  have hmemsel : ∀ i ∈ (((argsortAsc sims).reverse.filter (fun i => i ≠ wi)).take topn),
      i ≠ wi ∧ i < sims.length := by
    intro i hi
    have h1 := List.take_subset _ _ hi
    rw [List.mem_filter] at h1
    exact ⟨of_decide_eq_true h1.2, mem_argsortAsc (List.mem_reverse.mp h1.1)⟩
  refine ⟨?_, ?_, ?_⟩
  · rw [List.length_map]
    exact List.length_take_le _ _
  · intro p hp
    rw [List.mem_map] at hp
    obtain ⟨i, hi, rfl⟩ := hp
    obtain ⟨hne, hilt⟩ := hmemsel i hi
    have hilt' : i < m.words.length := hlen ▸ hilt
    rw [List.getD_eq_getElem _ _ hilt', List.getD_eq_getElem _ _ hwi]
    intro hcontra
    exact hne ((hnodup.getElem_inj_iff).mp hcontra)
  · have hsorted : ((argsortAsc sims).reverse).Pairwise
        (fun i j => sims.getD j 0 ≤ sims.getD i 0) :=
      (List.pairwise_reverse).mpr (argsortAsc_sorted sims)
    have hsubsel : List.Sublist
        (((argsortAsc sims).reverse.filter (fun i => i ≠ wi)).take topn)
        ((argsortAsc sims).reverse) :=
      (List.take_sublist _ _).trans (List.filter_sublist _)
    have hps := List.Pairwise.sublist hsubsel hsorted
    rw [List.map_map, List.Sorted]
    exact (List.pairwise_map).mpr hps

/-- C1: For every word present in the TF-IDF vocabulary and every `N ≥ 1`
(actually every `N`), `nearest(word, model, N)` on the TF-IDF path returns at
most `N` `(word, score)` pairs, the query word's own row never appears among
them, and the similarity scores are in non-increasing order.  The
well-formedness hypotheses are the spec's data model: one embedding row per
vocabulary entry, and the vocabulary a bijection between words and dense
indices (`Nodup`). -/
theorem tfidf_nearest_topn_excludes_query_sorted (M : Models) (word : String)
    (topn : Nat)
    (hlen : M.tfidf.rows.length = M.tfidf.words.length)
    (hnodup : M.tfidf.words.Nodup)
    (_htopn : 1 ≤ topn)
    (hmem : pyNormalize word ∈ M.tfidf.words) :
    (get_similar_words_tfidf M word topn).1.length ≤ topn ∧
    (∀ p ∈ (get_similar_words_tfidf M word topn).1, p.1 ≠ pyNormalize word) ∧
    ((get_similar_words_tfidf M word topn).1.map Prod.snd).Sorted
      (fun a b => b ≤ a) := by
  have hwi : M.tfidf.words.indexOf (pyNormalize word) < M.tfidf.words.length :=
    List.indexOf_lt_length.mpr hmem
  have hfst : (get_similar_words_tfidf M word topn).1 =
      buildResults M.tfidf
        (M.tfidf.rows.map
          (M.cosSim (M.tfidf.rows.getD (M.tfidf.words.indexOf (pyNormalize word)) [])))
        (M.tfidf.words.indexOf (pyNormalize word)) topn
        ((argsortAsc
          (M.tfidf.rows.map
            (M.cosSim (M.tfidf.rows.getD (M.tfidf.words.indexOf (pyNormalize word)) [])))).reverse) := by
    simp only [get_similar_words_tfidf]
    rw [if_pos hmem]
  have hslen : (M.tfidf.rows.map
      (M.cosSim (M.tfidf.rows.getD (M.tfidf.words.indexOf (pyNormalize word)) []))).length =
      M.tfidf.words.length := by
    rw [List.length_map, hlen]
  have h := ranked_selection_props M.tfidf
    (M.tfidf.rows.map
      (M.cosSim (M.tfidf.rows.getD (M.tfidf.words.indexOf (pyNormalize word)) [])))
    (M.tfidf.words.indexOf (pyNormalize word)) topn hslen hnodup hwi
  have hq : M.tfidf.words.getD (M.tfidf.words.indexOf (pyNormalize word)) "" =
      pyNormalize word := by
    rw [List.getD_eq_getElem _ _ hwi]
    exact List.getElem_indexOf hwi
  rw [hq] at h
  rw [hfst]
  exact h

/-- Demonstration model instance used by witnesses: the spec's own concrete
scenario (section 8) with vocabulary cat/dog/fish, plus minimal Word2Vec
models and a dot-product similarity. -/
def demoW2V : W2VModel :=
  { keys := ["cat"], vecs := fun _ => [1], mostSimilar := fun _ _ => [] }

/-- Demonstration models bundle for witnesses. -/
def demoModels : Models :=
  { tfidf := { words := ["cat", "dog", "fish"], rows := [[10, 0], [9, 1], [0, 10]] }
    cbow := demoW2V
    skipgram := demoW2V
    freqs := [("cat", 3), ("dog", 2), ("fish", 1)]
    cosSim := fun u v => if v = u then 10 else if v = [9, 1] then 9 else 0 }

/-- Witness for C1: the theorem applied to the demonstration model, query
word "cat", `N = 2`. -/
theorem tfidf_nearest_topn_excludes_query_sorted_witness :
    (demoModels.tfidf.rows.length = demoModels.tfidf.words.length ∧
     demoModels.tfidf.words.Nodup ∧ 1 ≤ 2 ∧
     pyNormalize "cat" ∈ demoModels.tfidf.words) ∧
    ((get_similar_words_tfidf demoModels "cat" 2).1.length ≤ 2 ∧
     (∀ p ∈ (get_similar_words_tfidf demoModels "cat" 2).1, p.1 ≠ pyNormalize "cat") ∧
     ((get_similar_words_tfidf demoModels "cat" 2).1.map Prod.snd).Sorted
       (fun a b => b ≤ a)) :=
  ⟨⟨by decide, by decide, by decide, by decide⟩,
   tfidf_nearest_topn_excludes_query_sorted demoModels "cat" 2
     (by decide) (by decide) (by decide) (by decide)⟩

/-- Concrete model for the tie-break counterexample: three vocabulary words
with rows `[[0], [1], [2]]` and a similarity function that scores rows 0 and 2
equally (5) and row 1 (the query "b") with 7. -/
def cexModels : Models :=
  { tfidf := { words := ["a", "b", "c"], rows := [[0], [1], [2]] }
    cbow := demoW2V
    skipgram := demoW2V
    freqs := []
    cosSim := fun _ v => if v = [1] then 7 else 5 }

/-- C3 counterexample: the claim that equal-score candidates are ranked with
the SMALLER original vocabulary index first is false.  For query "b" the
candidate rows 0 ("a") and 2 ("c") both score 5, yet the result ranks
"c" (index 2) before "a" (index 0). -/
theorem tfidf_tie_break_ascending_counterexample :
    (get_similar_words_tfidf cexModels "b" 2).1 = [("c", 5), ("a", 5)] ∧
    cexModels.tfidf.words.indexOf "c" = 2 ∧
    cexModels.tfidf.words.indexOf "a" = 0 ∧
    cexModels.cosSim [1] [0] = cexModels.cosSim [1] [2] := by
  refine ⟨by decide, by decide, by decide, by decide⟩

/-- C3 (amended): in the TF-IDF nearest-neighbor ranking
`top_indices = similarities.argsort()[::-1]`, whenever two candidate rows have
equal similarity scores, the row with the LARGER original vocabulary index is
ranked first among the equal-score group (the stable ascending argsort keeps
the smaller index first and the reversal flips the group). -/
theorem tfidf_tie_break_larger_index_first {sims : List ℚ} {i j : Nat}
    (hij : i < j) (hj : j < sims.length)
    (heq : sims.getD i 0 = sims.getD j 0) :
    List.Sublist [j, i] (argsortAsc sims).reverse :=
  argsort_reverse_tie_larger_index_first hij hj heq

/-- Witness for the amended C3: on the similarity vector `[5, 7, 5]` the
equal-score rows 0 and 2 appear as `[2, 0]` in the descending ranking. -/
theorem tfidf_tie_break_larger_index_first_witness :
    ((0 : Nat) < 2 ∧ 2 < ([5, 7, 5] : List ℚ).length ∧
      ([5, 7, 5] : List ℚ).getD 0 0 = ([5, 7, 5] : List ℚ).getD 2 0) ∧
    List.Sublist [2, 0] (argsortAsc [5, 7, 5]).reverse :=
  ⟨⟨by decide, by decide, by decide⟩,
   tfidf_tie_break_larger_index_first (by decide) (by decide) (by decide)⟩

/-! ### C4: the t-SNE perplexity clamp -/

/-- Stated from the spec's words: the requested perplexity is clamped to
`min(requested, max(5, (n_samples - 1) / 3))` (floor division), to compare
with the source's computation. -/
def specEffectivePerplexity (requested : Int) (n_samples : Nat) : Int :=
  min requested (max 5 (((n_samples : Int) - 1).fdiv 3))

/-- C4: for every t-SNE reduction over `n_samples` rows with requested
perplexity `p`, the effective perplexity passed to the t-SNE routine equals
`min(p, max(5, floor((n_samples - 1) / 3)))`; in particular, requesting
perplexity 30 on a 10-sample input yields an effective perplexity of at
most 5. -/
theorem tsne_perplexity_clamp :
    (∀ (p : Int) (n : Nat), adjusted_perplexity p n = specEffectivePerplexity p n) ∧
    (∀ (tsneFn : List (List ℚ) → Int → Option (List (ℚ × ℚ)))
       (pcaFn : List (List ℚ) → List (ℚ × ℚ))
       (embeddings : List (List ℚ)) (p : Int),
        reduce_tsne tsneFn pcaFn embeddings p =
          match tsneFn embeddings (specEffectivePerplexity p embeddings.length) with
          | some reduced => reduced
          | none => pcaFn embeddings) ∧
    adjusted_perplexity 30 10 = 5 ∧ adjusted_perplexity 30 10 ≤ 5 :=
  ⟨fun _ _ => rfl, fun _ _ _ _ => rfl, by decide, by decide⟩

/-! ### C6: vocabulary misses are structured results, not failures -/

/-- The vocabulary of the selected model, as each branch of the similarity
engine consults it. -/
def vocabOf (M : Models) (model_type : String) : List String :=
  if model_type = "tfidf" then M.tfidf.words
  else if model_type = "word2vec_cbow" then M.cbow.keys
  else if model_type = "word2vec_skipgram" then M.skipgram.keys
  else []

theorem append_ne_empty_left {s : String} (t : String) (h : s ≠ "") :
    s ++ t ≠ "" := by
  intro hc
  apply h
  have hd : (s ++ t).data = [] := by rw [hc]
  rw [String.data_append] at hd
  have h1 := (List.append_eq_nil.mp hd).1
  cases s with
  | mk d => cases h1; rfl

/-- C6: for every word and every valid model selector, if the normalized word
is absent from that model's vocabulary, the similarity lookup returns
`([], false, some msg)` with a non-empty message, and (being a total
function) does not raise. -/
theorem similarity_missing_word_graceful (M : Models) (word model_type : String)
    (topn : Nat) (hmt : model_type ∈ modelTypeKeys)
    (habs : pyNormalize word ∉ vocabOf M model_type) :
    ∃ msg : String,
      get_similar_words M word model_type topn = ([], false, some msg) ∧ msg ≠ "" := by
  simp only [modelTypeKeys, List.mem_cons, List.mem_singleton] at hmt
  rcases hmt with rfl | rfl | hmt
  · have hv : pyNormalize word ∉ M.tfidf.words := by simpa [vocabOf] using habs
    refine ⟨"Word \x27" ++ pyNormalize word ++ "\x27 not found in TF-IDF vocabulary", ?_, ?_⟩
    · simp [get_similar_words, get_similar_words_tfidf, hv]
    · exact append_ne_empty_left _ (append_ne_empty_left _ (by decide))
  · have hv : pyNormalize word ∉ M.cbow.keys := by simpa [vocabOf] using habs
    refine ⟨"Word \x27" ++ pyNormalize word ++ "\x27 not found in " ++ "word2vec_cbow" ++
      " vocabulary", ?_, ?_⟩
    · simp [get_similar_words, get_similar_words_word2vec, hv]
    · exact append_ne_empty_left _ (append_ne_empty_left _ (append_ne_empty_left _
        (append_ne_empty_left _ (by decide))))
  · rcases hmt with rfl | hmt
    · have hv : pyNormalize word ∉ M.skipgram.keys := by simpa [vocabOf] using habs
      refine ⟨"Word \x27" ++ pyNormalize word ++ "\x27 not found in " ++ "word2vec_skipgram" ++
        " vocabulary", ?_, ?_⟩
      · simp [get_similar_words, get_similar_words_word2vec, hv]
      · exact append_ne_empty_left _ (append_ne_empty_left _ (append_ne_empty_left _
          (append_ne_empty_left _ (by decide))))
    · cases hmt

/-- Witness for C6: "zzz" is absent from the demonstration TF-IDF vocabulary
and yields the structured miss. -/
theorem similarity_missing_word_graceful_witness :
    ("tfidf" ∈ modelTypeKeys ∧ pyNormalize "zzz" ∉ vocabOf demoModels "tfidf") ∧
    ∃ msg : String,
      get_similar_words demoModels "zzz" "tfidf" 10 = ([], false, some msg) ∧ msg ≠ "" :=
  ⟨⟨by decide, by decide⟩,
   similarity_missing_word_graceful demoModels "zzz" "tfidf" 10 (by decide) (by decide)⟩

/-! ### C7: the batch endpoint -/

/-- C7: the batch similarity endpoint rejects a list of more than 20 words
with HTTP 400 before processing any word; for at most 20 words it processes
every word, each result being the independent per-word computation
`batch_item` applied to that word alone (so a not-found word cannot abort or
alter any other word's result). -/
theorem batch_endpoint_bounds_and_independence (M : Models) (words : List String)
    (model_type : String) (topn : Nat) (hmt : model_type ∈ modelTypeKeys) :
    (words.length > 20 →
      get_similar_words_batch M words model_type topn =
        .error (400, "Maximum 20 words per batch")) ∧
    (words.length ≤ 20 →
      get_similar_words_batch M words model_type topn =
        .ok (model_type, words.map (batch_item M model_type topn)) ∧
      (words.map (batch_item M model_type topn)).length = words.length ∧
      ∀ i : Nat, (words.map (batch_item M model_type topn))[i]? =
        (words[i]?).map (batch_item M model_type topn)) := by
  have hvalid : ¬model_type ∉ modelTypeKeys := not_not.mpr hmt
  constructor
  · intro hlong
    rw [get_similar_words_batch, if_neg hvalid, if_pos hlong]
  · intro hshort
    refine ⟨?_, List.length_map _ _, fun i => List.getElem?_map _ _ _⟩
    rw [get_similar_words_batch, if_neg hvalid, if_neg (by omega)]

/-- Witness for C7: a 21-word list is rejected, a 20-word list is fully
processed. -/
theorem batch_endpoint_bounds_and_independence_witness :
    ("tfidf" ∈ modelTypeKeys ∧ (List.replicate 21 "x").length > 20 ∧
      (List.replicate 20 "x").length ≤ 20) ∧
    (get_similar_words_batch demoModels (List.replicate 21 "x") "tfidf" 5 =
      .error (400, "Maximum 20 words per batch")) ∧
    (get_similar_words_batch demoModels (List.replicate 20 "x") "tfidf" 5 =
      .ok ("tfidf", (List.replicate 20 "x").map (batch_item demoModels "tfidf" 5))) :=
  ⟨⟨by decide, by decide, by decide⟩,
   (batch_endpoint_bounds_and_independence demoModels (List.replicate 21 "x") "tfidf" 5
     (by decide)).1 (by decide),
   ((batch_endpoint_bounds_and_independence demoModels (List.replicate 20 "x") "tfidf" 5
     (by decide)).2 (by decide)).1⟩

/-! ### C2: the neighborhood endpoint on a missing word -/

/-- Concrete stand-in for the PCA projection in witnesses: every row maps to
the origin (any length-preserving function would do). -/
def pcaStub : List (List ℚ) → List (ℚ × ℚ) :=
  fun X => X.map (fun _ => (0, 0))

/-- Concrete stand-in for the t-SNE projection in witnesses: always succeeds,
every row maps to the origin. -/
def tsneStub : List (List ℚ) → Int → Option (List (ℚ × ℚ)) :=
  fun X _ => some (X.map (fun _ => (0, 0)))

/-- C2 (code bug): when the word is absent from the TF-IDF vocabulary, the
neighborhood endpoint does NOT respond 404.  The `HTTPException(404)` raised
inside the `try` block is caught by the handler's own `except Exception`
clause and re-raised as a 500 whose detail embeds the original
`"404: Word ... not found in vocabulary"` text. -/
theorem neighborhood_missing_word_returns_500 (M : Models)
    (tsneFn : List (List ℚ) → Int → Option (List (ℚ × ℚ)))
    (pcaFn : List (List ℚ) → List (ℚ × ℚ))
    (word method : String) (num_neighbors : Nat) (perplexity : Int)
    (habs : pyNormalize word ∉ M.tfidf.words) :
    get_word_neighborhood_endpoint M tsneFn pcaFn "tfidf" word method
        num_neighbors perplexity =
      .err 500 ("Error generating neighborhood: " ++
        strOfExc (.httpException 404
          ("Word \x27" ++ word ++ "\x27 not found in vocabulary"))) := by
  have hview : get_word_neighborhood M tsneFn pcaFn word "tfidf" method
      num_neighbors perplexity = ([], [], []) := by
    simp [get_word_neighborhood, get_similar_words, get_similar_words_tfidf, habs]
  rw [get_word_neighborhood_endpoint, if_neg (by decide)]
  rw [neighborhood_try_body, hview]
  rfl

/-- Witness for C2: the endpoint evaluated at a concrete missing word. -/
theorem neighborhood_missing_word_returns_500_witness :
    (pyNormalize "zzz" ∉ demoModels.tfidf.words) ∧
    get_word_neighborhood_endpoint demoModels tsneStub pcaStub "tfidf" "zzz" "pca" 20 30 =
      .err 500 ("Error generating neighborhood: " ++
        strOfExc (.httpException 404
          ("Word \x27" ++ "zzz" ++ "\x27 not found in vocabulary"))) :=
  ⟨by decide,
   neighborhood_missing_word_returns_500 demoModels tsneStub pcaStub "zzz" "pca" 20 30
     (by decide)⟩

/-! ### C5: memoization and cache keys -/

theorem string_ext {s t : String} (h : s.data = t.data) : s = t := by
  cases s
  cases t
  cases h
  rfl

theorem cacheInsert_lookup (c : RCache) (k : String) (v : VizResult) :
    (cacheInsert c k v).lookup k = some v := by
  simp [cacheInsert, List.lookup]

theorem get_cache_key_data (mt me : String) (n : Nat) (p : Int) :
    (get_cache_key mt me n p).data =
      mt.data ++ '_' :: (me.data ++ '_' :: ((Nat.repr n).data ++ '_' :: (Int.repr p).data)) := by
  have hn : (toString n).data = (Nat.repr n).data := rfl
  have hp : (toString p).data = (Int.repr p).data := rfl
  have hu : ("_" : String).data = ['_'] := rfl
  simp [get_cache_key, String.data_append, hn, hp, hu]

/-- Cache keys are injective on tuples whose string components contain no
underscore (the decimal renderings of the numeric components never do). -/
theorem get_cache_key_injective {mt me mt2 me2 : String} {n n2 : Nat} {p p2 : Int}
    (hmt : '_' ∉ mt.data) (hme : '_' ∉ me.data)
    (hmt2 : '_' ∉ mt2.data) (hme2 : '_' ∉ me2.data)
    (h : get_cache_key mt me n p = get_cache_key mt2 me2 n2 p2) :
    mt = mt2 ∧ me = me2 ∧ n = n2 ∧ p = p2 := by
  have hd := congrArg String.data h
  rw [get_cache_key_data, get_cache_key_data] at hd
  obtain ⟨h1, hd⟩ := sep_split hmt hmt2 hd
  obtain ⟨h2, hd⟩ := sep_split hme hme2 hd
  obtain ⟨h3, h4⟩ := sep_split (nat_repr_no_underscore n) (nat_repr_no_underscore n2) hd
  refine ⟨string_ext h1, string_ext h2, ?_, ?_⟩
  · rw [repr_data, repr_data] at h3
    exact digs_injective h3
  · exact int_repr_injective (string_ext h4)

/-- C5 counterexample: the claim that distinct `(model, method, word_count,
perplexity)` tuples map to distinct cache entries is false.  The tuples
`("word2vec_cbow", "pca", 100, 30)` and `("word2vec", "cbow_pca", 100, 30)`
are distinct yet produce the same key string, and after the first call stores
its result, a call with the second tuple (whose method is not even valid)
returns the first tuple's cached entry. -/
theorem cache_key_collision_counterexample :
    get_cache_key "word2vec_cbow" "pca" 100 30 = "word2vec_cbow_pca_100_30" ∧
    get_cache_key "word2vec" "cbow_pca" 100 30 = "word2vec_cbow_pca_100_30" ∧
    ("word2vec_cbow", "pca", (100 : Nat), (30 : Int)) ≠ ("word2vec", "cbow_pca", 100, 30) ∧
    get_reduced_embeddings demoModels tsneStub pcaStub [] "word2vec_cbow" "pca" 100 30 true =
      .ok (([(0, 0)], ["cat"], [3]),
           [("word2vec_cbow_pca_100_30", ([(0, 0)], ["cat"], [3]))], true) ∧
    get_reduced_embeddings demoModels tsneStub pcaStub
        [("word2vec_cbow_pca_100_30", ([(0, 0)], ["cat"], [3]))]
        "word2vec" "cbow_pca" 100 30 true =
      .ok (([(0, 0)], ["cat"], [3]),
           [("word2vec_cbow_pca_100_30", ([(0, 0)], ["cat"], [3]))], false) :=
  ⟨by decide, by decide, by decide, by rfl, by rfl⟩

/-- C5 (amended): with caching enabled, a second call with identical
arguments returns exactly the tuple the first call left in the cache — same
value, unchanged cache, no recomputation — provided the first call produced a
non-empty word list (the empty result is returned without being cached); and
distinct tuples map to distinct cache key strings provided the string
components are underscore-free (the collision counterexample shows the
unrestricted distinctness is false). -/
theorem cache_second_call_cached_and_keys_injective (M : Models)
    (tsneFn : List (List ℚ) → Int → Option (List (ℚ × ℚ)))
    (pcaFn : List (List ℚ) → List (ℚ × ℚ))
    (cache : RCache) (mt me : String) (n : Nat) (p : Int)
    (r : VizResult) (st1 : RCache) (b : Bool)
    (h1 : get_reduced_embeddings M tsneFn pcaFn cache mt me n p true = .ok (r, st1, b))
    (hw : r.2.1 ≠ []) :
    get_reduced_embeddings M tsneFn pcaFn st1 mt me n p true = .ok (r, st1, false) ∧
    (∀ (mt2 me2 : String) (n2 : Nat) (p2 : Int),
      '_' ∉ mt.data → '_' ∉ me.data → '_' ∉ mt2.data → '_' ∉ me2.data →
      get_cache_key mt me n p = get_cache_key mt2 me2 n2 p2 →
      mt = mt2 ∧ me = me2 ∧ n = n2 ∧ p = p2) := by
  refine ⟨?_, fun mt2 me2 n2 p2 a b c d e => get_cache_key_injective a b c d e⟩
  cases hc : cache.lookup (get_cache_key mt me n p) with
  | some v =>
    simp only [get_reduced_embeddings, hc, if_true] at h1
    obtain ⟨hv, hst, hb⟩ := by simpa using h1
    simp only [get_reduced_embeddings, ← hst, hc, if_true, hv]
  | none =>
    simp only [get_reduced_embeddings, hc, if_true] at h1
    by_cases hlen0 : (get_all_embeddings M mt n).2.length = 0
    · rw [if_pos hlen0] at h1
      obtain ⟨hv, _, _⟩ := by simpa using h1
      exact absurd (congrArg (fun q => q.2.1) hv.symm) (by simpa using hw)
    · rw [if_neg hlen0] at h1
      cases hred : (if me = "pca" then some (pcaFn (get_all_embeddings M mt n).1)
             else if me = "tsne" then
               some (reduce_tsne tsneFn pcaFn (get_all_embeddings M mt n).1 p)
             else none) with
      | none => rw [hred] at h1; cases h1
      | some reduced =>
        rw [hred] at h1
        obtain ⟨hv, hst, hb⟩ := by simpa using h1
        simp only [get_reduced_embeddings, ← hst, cacheInsert_lookup, if_true, hv]

/-- Witness for the amended C5: a first call on the empty cache followed by an
identical second call that hits the cache. -/
theorem cache_second_call_cached_and_keys_injective_witness :
    (get_reduced_embeddings demoModels tsneStub pcaStub [] "tfidf" "pca" 100 30 true =
       .ok ((([(0, 0), (0, 0), (0, 0)] : List (ℚ × ℚ)), ["cat", "dog", "fish"], [3, 2, 1]),
            [("tfidf_pca_100_30",
              (([(0, 0), (0, 0), (0, 0)] : List (ℚ × ℚ)), ["cat", "dog", "fish"], [3, 2, 1]))],
            true) ∧
     ((([(0, 0), (0, 0), (0, 0)] : List (ℚ × ℚ)), (["cat", "dog", "fish"] : List String),
        ([3, 2, 1] : List Nat)) : VizResult).2.1 ≠ []) ∧
    get_reduced_embeddings demoModels tsneStub pcaStub
        [("tfidf_pca_100_30",
          (([(0, 0), (0, 0), (0, 0)] : List (ℚ × ℚ)), ["cat", "dog", "fish"], [3, 2, 1]))]
        "tfidf" "pca" 100 30 true =
      .ok ((([(0, 0), (0, 0), (0, 0)] : List (ℚ × ℚ)), ["cat", "dog", "fish"], [3, 2, 1]),
           [("tfidf_pca_100_30",
             (([(0, 0), (0, 0), (0, 0)] : List (ℚ × ℚ)), ["cat", "dog", "fish"], [3, 2, 1]))],
           false) :=
  ⟨⟨by rfl, by decide⟩,
   (cache_second_call_cached_and_keys_injective demoModels tsneStub pcaStub []
      "tfidf" "pca" 100 30
      (([(0, 0), (0, 0), (0, 0)] : List (ℚ × ℚ)), ["cat", "dog", "fish"], [3, 2, 1])
      [("tfidf_pca_100_30",
        (([(0, 0), (0, 0), (0, 0)] : List (ℚ × ℚ)), ["cat", "dog", "fish"], [3, 2, 1]))]
      true (by rfl) (by decide)).1⟩

/-! ### C10: cache entries always carry a non-empty word list -/

/-- Cache states reachable through the reduction service: the initial empty
cache, the state after any successful `get_reduced_embeddings` call (a raised
`ValueError` leaves the state untouched), and the state after `clear_cache`. -/
inductive CacheReachable : RCache → Prop where
  | init : CacheReachable []
  | step {st : RCache} {M : Models}
      {tsneFn : List (List ℚ) → Int → Option (List (ℚ × ℚ))}
      {pcaFn : List (List ℚ) → List (ℚ × ℚ)}
      {mt me : String} {n : Nat} {p : Int} {uc : Bool}
      {r : VizResult} {st2 : RCache} {b : Bool} :
      CacheReachable st →
      get_reduced_embeddings M tsneFn pcaFn st mt me n p uc = .ok (r, st2, b) →
      CacheReachable st2
  | clear {st : RCache} : CacheReachable st → CacheReachable (clear_cache st)

/-- C10: every entry stored in a reachable reduction cache has a non-empty
word list: a call whose embedding lookup yields zero words returns without
writing a cache entry, every cache write stores the non-empty word list it
just computed, and `clear_cache` empties the cache. -/
theorem cache_entries_nonempty (st : RCache) (h : CacheReachable st) :
    ∀ e ∈ st, e.2.2.1 ≠ [] := by
  induction h with
  | init => intro e he; cases he
  | @step st M tsneFn pcaFn mt me n p uc r st2 b hre hcall ih =>
    cases hc : (if uc then st.lookup (get_cache_key mt me n p) else none) with
    | some v =>
      simp only [get_reduced_embeddings, hc] at hcall
      obtain ⟨_, hst, _⟩ := by simpa using hcall
      rw [← hst]
      exact ih
    | none =>
      simp only [get_reduced_embeddings, hc] at hcall
      by_cases hlen0 : (get_all_embeddings M mt n).2.length = 0
      · rw [if_pos hlen0] at hcall
        obtain ⟨_, hst, _⟩ := by simpa using hcall
        rw [← hst]
        exact ih
      · rw [if_neg hlen0] at hcall
        cases hred : (if me = "pca" then some (pcaFn (get_all_embeddings M mt n).1)
               else if me = "tsne" then
                 some (reduce_tsne tsneFn pcaFn (get_all_embeddings M mt n).1 p)
               else none) with
        | none => rw [hred] at hcall; cases hcall
        | some reduced =>
          rw [hred] at hcall
          obtain ⟨_, hst, _⟩ := by simpa using hcall
          intro e he
          rw [← hst] at he
          simp only [cacheInsert, List.mem_cons] at he
          rcases he with rfl | hmem
          · simpa using fun hnil => hlen0 (by rw [hnil]; rfl)
          · exact ih e (List.mem_of_mem_filter hmem)
  | clear hre ih =>
    intro e he
    cases he

/-- Witness for C10: the invariant evaluated on a concrete reachable state,
produced by one successful call on the empty cache. -/
theorem cache_entries_nonempty_witness :
    (("tfidf_pca_100_30",
      (([(0, 0), (0, 0), (0, 0)] : List (ℚ × ℚ)), ["cat", "dog", "fish"], [3, 2, 1])) :
      String × VizResult).2.2.1 ≠ [] :=
  cache_entries_nonempty
    [("tfidf_pca_100_30",
      (([(0, 0), (0, 0), (0, 0)] : List (ℚ × ℚ)), ["cat", "dog", "fish"], [3, 2, 1]))]
    (CacheReachable.step CacheReachable.init
      (by rfl :
        get_reduced_embeddings demoModels tsneStub pcaStub [] "tfidf" "pca" 100 30 true =
          .ok ((([(0, 0), (0, 0), (0, 0)] : List (ℚ × ℚ)), ["cat", "dog", "fish"], [3, 2, 1]),
               [("tfidf_pca_100_30",
                 (([(0, 0), (0, 0), (0, 0)] : List (ℚ × ℚ)), ["cat", "dog", "fish"],
                  [3, 2, 1]))],
               true)))
    _ (List.mem_singleton.mpr rfl)

/-! ### C8: word selection by descending frequency -/

theorem rankByFreq_perm (M : Models) (ws : List String) :
    (rankByFreq M ws).Perm (ws.map fun w => (w, freqGet M w)) :=
  List.perm_insertionSort _ _

theorem rankByFreq_sorted (M : Models) (ws : List String) :
    (rankByFreq M ws).Sorted (fun a b => b.2 ≤ a.2) := by
  haveI : IsTotal (String × Nat) (fun a b => b.2 ≤ a.2) := ⟨fun a b => le_total _ _⟩
  haveI : IsTrans (String × Nat) (fun a b => b.2 ≤ a.2) :=
    ⟨fun a b c h1 h2 => le_trans h2 h1⟩
  exact List.sorted_insertionSort _ _

theorem rankByFreq_snd (M : Models) (ws : List String) :
    ∀ pr ∈ rankByFreq M ws, pr.2 = freqGet M pr.1 := by
  intro pr hpr
  have hm := (rankByFreq_perm M ws).mem_iff.mp hpr
  obtain ⟨w, _, rfl⟩ := List.mem_map.mp hm
  rfl

/-- The selected word list of `get_all_embeddings`: its length, descending
frequency order, membership, distinctness, and the fact that the selection is
exactly the top of the frequency ranking. -/
theorem topByFreq_props (M : Models) (ws : List String) (n : Nat) (hnd : ws.Nodup) :
    (((rankByFreq M ws).take n).map Prod.fst).length = min n ws.length ∧
    ((((rankByFreq M ws).take n).map Prod.fst).map (freqGet M)).Sorted
      (fun a b => b ≤ a) ∧
    (∀ w ∈ ((rankByFreq M ws).take n).map Prod.fst, w ∈ ws) ∧
    (((rankByFreq M ws).take n).map Prod.fst).Nodup ∧
    (∀ w ∈ ((rankByFreq M ws).take n).map Prod.fst,
      ∀ v ∈ ws, v ∉ ((rankByFreq M ws).take n).map Prod.fst →
        freqGet M v ≤ freqGet M w) := by
  have hperm := rankByFreq_perm M ws
  have hsorted := rankByFreq_sorted M ws
  have hsnd := rankByFreq_snd M ws
  have hlenr : (rankByFreq M ws).length = ws.length := by
    rw [hperm.length_eq, List.length_map]
  refine ⟨?_, ?_, ?_, ?_, ?_⟩
  · rw [List.length_map, List.length_take, hlenr]
  · have hps : ((rankByFreq M ws).take n).Pairwise (fun a b => b.2 ≤ a.2) :=
      List.Pairwise.sublist (List.take_sublist _ _) hsorted
    rw [List.map_map, List.Sorted]
    refine (List.pairwise_map).mpr ?_
    refine List.Pairwise.imp_of_mem ?_ hps
    intro a b ha hb hle
    have hsa := hsnd a (List.take_subset _ _ ha)
    have hsb := hsnd b (List.take_subset _ _ hb)
    simpa [Function.comp, ← hsa, ← hsb] using hle
  · intro w hw
    obtain ⟨pr, hpr, rfl⟩ := List.mem_map.mp hw
    have := hperm.mem_iff.mp (List.take_subset _ _ hpr)
    obtain ⟨v, hv, rfl⟩ := List.mem_map.mp this
    exact hv
  · have hmm : ∀ l : List String, (l.map fun w => (w, freqGet M w)).map Prod.fst = l := by
      intro l
      induction l with
      | nil => rfl
      | cons a t ih => simp [ih]
    have h1 : ((rankByFreq M ws).map Prod.fst).Perm ws := by
      have hm := hperm.map Prod.fst
      rw [hmm ws] at hm
      exact hm
    have h2 : ((rankByFreq M ws).map Prod.fst).Nodup := h1.nodup_iff.mpr hnd
    rw [List.map_take]
    exact h2.sublist (List.take_sublist _ _)
  · intro w hw v hv hnotin
    have hvr : (v, freqGet M v) ∈ rankByFreq M ws :=
      hperm.mem_iff.mpr (List.mem_map.mpr ⟨v, hv, rfl⟩)
    have hsplit := List.take_append_drop n (rankByFreq M ws)
    have hvd : (v, freqGet M v) ∈ (rankByFreq M ws).drop n := by
      have hvr2 : (v, freqGet M v) ∈
          ((rankByFreq M ws).take n ++ (rankByFreq M ws).drop n) := by
        rw [hsplit]; exact hvr
      rcases List.mem_append.mp hvr2 with h | h
      · exact absurd (List.mem_map.mpr ⟨_, h, rfl⟩) hnotin
      · exact h
    obtain ⟨prw, hprw, hfst⟩ := List.mem_map.mp hw
    have hs2 : ((rankByFreq M ws).take n ++ (rankByFreq M ws).drop n).Pairwise
        (fun a b => b.2 ≤ a.2) := by
      rw [hsplit]; exact hsorted
    have hle := (List.pairwise_append.mp hs2).2.2 prw hprw _ hvd
    rw [hsnd prw (List.take_subset _ _ hprw), hfst] at hle
    exact hle

/-- C8: for every valid model selector and word count, the full-visualization
path selects exactly the top `num_words` vocabulary words ranked by
descending frequency (a word missing from the frequency table counts 0),
gathers their embedding rows in that order, and the reduction path returns
the word list and the frequency list in that same order, parallel to the
coordinate rows. -/
theorem get_all_embeddings_top_frequency (M : Models) (model_type : String)
    (num_words : Nat) (hmt : model_type ∈ modelTypeKeys)
    (hnd : (vocabOf M model_type).Nodup) :
    ((get_all_embeddings M model_type num_words).2.length =
       min num_words (vocabOf M model_type).length) ∧
    (((get_all_embeddings M model_type num_words).2.map (freqGet M)).Sorted
       (fun a b => b ≤ a)) ∧
    (∀ w ∈ (get_all_embeddings M model_type num_words).2, w ∈ vocabOf M model_type) ∧
    ((get_all_embeddings M model_type num_words).2.Nodup) ∧
    (∀ w ∈ (get_all_embeddings M model_type num_words).2,
      ∀ v ∈ vocabOf M model_type, v ∉ (get_all_embeddings M model_type num_words).2 →
        freqGet M v ≤ freqGet M w) ∧
    ((get_all_embeddings M model_type num_words).1.length =
       (get_all_embeddings M model_type num_words).2.length) ∧
    (model_type = "tfidf" →
      (get_all_embeddings M model_type num_words).1 =
        (get_all_embeddings M model_type num_words).2.map
          (fun w => M.tfidf.rows.getD (M.tfidf.words.indexOf w) [])) ∧
    (∀ (tsneFn : List (List ℚ) → Int → Option (List (ℚ × ℚ)))
       (pcaFn : List (List ℚ) → List (ℚ × ℚ)) (p : Int) (cache : RCache),
      cache.lookup (get_cache_key model_type "pca" num_words p) = none →
      (get_all_embeddings M model_type num_words).2 ≠ [] →
      get_reduced_embeddings M tsneFn pcaFn cache model_type "pca" num_words p true =
        .ok ((pcaFn (get_all_embeddings M model_type num_words).1,
              (get_all_embeddings M model_type num_words).2,
              (get_all_embeddings M model_type num_words).2.map (freqGet M)),
             cacheInsert cache (get_cache_key model_type "pca" num_words p)
               (pcaFn (get_all_embeddings M model_type num_words).1,
                (get_all_embeddings M model_type num_words).2,
                (get_all_embeddings M model_type num_words).2.map (freqGet M)),
             true)) := by
  have hreduced : ∀ (tsneFn : List (List ℚ) → Int → Option (List (ℚ × ℚ)))
      (pcaFn : List (List ℚ) → List (ℚ × ℚ)) (p : Int) (cache : RCache),
      cache.lookup (get_cache_key model_type "pca" num_words p) = none →
      (get_all_embeddings M model_type num_words).2 ≠ [] →
      get_reduced_embeddings M tsneFn pcaFn cache model_type "pca" num_words p true =
        .ok ((pcaFn (get_all_embeddings M model_type num_words).1,
              (get_all_embeddings M model_type num_words).2,
              (get_all_embeddings M model_type num_words).2.map (freqGet M)),
             cacheInsert cache (get_cache_key model_type "pca" num_words p)
               (pcaFn (get_all_embeddings M model_type num_words).1,
                (get_all_embeddings M model_type num_words).2,
                (get_all_embeddings M model_type num_words).2.map (freqGet M)),
             true) := by
    intro tsneFn pcaFn p cache hlook hne
    have hlen0 : ¬(get_all_embeddings M model_type num_words).2.length = 0 := by
      simpa [List.length_eq_zero] using hne
    simp only [get_reduced_embeddings, hlook, if_neg hlen0, if_true, if_pos rfl]
  simp only [modelTypeKeys, List.mem_cons, List.mem_singleton] at hmt
  rcases hmt with rfl | rfl | hmt
  · have hE : get_all_embeddings M "tfidf" num_words =
        ((((rankByFreq M M.tfidf.words).take num_words).map Prod.fst).map
          (fun w => M.tfidf.rows.getD (M.tfidf.words.indexOf w) []),
         ((rankByFreq M M.tfidf.words).take num_words).map Prod.fst) := by
      simp [get_all_embeddings]
    have hv : vocabOf M "tfidf" = M.tfidf.words := by simp [vocabOf]
    rw [hv] at hnd ⊢
    obtain ⟨h1, h2, h3, h4, h5⟩ := topByFreq_props M M.tfidf.words num_words hnd
    rw [hE]
    exact ⟨h1, h2, h3, h4, h5, by rw [List.length_map], fun _ => rfl,
      by rw [← hE]; exact hreduced⟩
  · have hE : get_all_embeddings M "word2vec_cbow" num_words =
        ((((rankByFreq M M.cbow.keys).take num_words).map Prod.fst).map M.cbow.vecs,
         ((rankByFreq M M.cbow.keys).take num_words).map Prod.fst) := by
      simp [get_all_embeddings]
    have hv : vocabOf M "word2vec_cbow" = M.cbow.keys := by simp [vocabOf]
    rw [hv] at hnd ⊢
    obtain ⟨h1, h2, h3, h4, h5⟩ := topByFreq_props M M.cbow.keys num_words hnd
    rw [hE]
    exact ⟨h1, h2, h3, h4, h5, by rw [List.length_map], fun h => absurd h (by decide),
      by rw [← hE]; exact hreduced⟩
  · rcases hmt with rfl | hmt
    · have hE : get_all_embeddings M "word2vec_skipgram" num_words =
          ((((rankByFreq M M.skipgram.keys).take num_words).map Prod.fst).map
            M.skipgram.vecs,
           ((rankByFreq M M.skipgram.keys).take num_words).map Prod.fst) := by
        simp [get_all_embeddings]
      have hv : vocabOf M "word2vec_skipgram" = M.skipgram.keys := by simp [vocabOf]
      rw [hv] at hnd ⊢
      obtain ⟨h1, h2, h3, h4, h5⟩ := topByFreq_props M M.skipgram.keys num_words hnd
      rw [hE]
      exact ⟨h1, h2, h3, h4, h5, by rw [List.length_map], fun h => absurd h (by decide),
        by rw [← hE]; exact hreduced⟩
    · cases hmt

/-- Witness for C8: the theorem applied to the demonstration model, TF-IDF
selector, word count 2. -/
theorem get_all_embeddings_top_frequency_witness :
    ("tfidf" ∈ modelTypeKeys ∧ (vocabOf demoModels "tfidf").Nodup) ∧
    ((get_all_embeddings demoModels "tfidf" 2).2.length =
       min 2 (vocabOf demoModels "tfidf").length ∧
     (get_all_embeddings demoModels "tfidf" 2).2 = ["cat", "dog"]) :=
  ⟨⟨by decide, by decide⟩,
   (get_all_embeddings_top_frequency demoModels "tfidf" 2 (by decide) (by decide)).1,
   by decide⟩

/-! ### C9: the first neighborhood point carries the raw query string -/

theorem round4_one : round4 1 = 1 := by
  rw [round4, one_mul, roundHalfEven]
  norm_num

/-- Every word in the TF-IDF similar-word list is a vocabulary word. -/
theorem tfidf_result_words_mem (M : Models) (word : String) (topn : Nat)
    (hlen : M.tfidf.rows.length = M.tfidf.words.length) :
    ∀ q ∈ (get_similar_words_tfidf M word topn).1, q.1 ∈ M.tfidf.words := by
  intro q hq
  by_cases hmem : pyNormalize word ∈ M.tfidf.words
  · simp only [get_similar_words_tfidf, if_pos hmem] at hq
    rw [buildResults_eq] at hq
    obtain ⟨i, hi, rfl⟩ := List.mem_map.mp hq
    have h1 := List.take_subset _ _ hi
    rw [List.mem_filter] at h1
    have hilt : i < (M.tfidf.rows.map
        (M.cosSim (M.tfidf.rows.getD (M.tfidf.words.indexOf (pyNormalize word)) []))).length :=
      mem_argsortAsc (List.mem_reverse.mp h1.1)
    rw [List.length_map, hlen] at hilt
    rw [List.getD_eq_getElem _ _ hilt]
    exact List.getElem_mem hilt
  · simp only [get_similar_words_tfidf, if_neg hmem] at hq
    simp at hq

/-- Shared-path shape of every non-empty neighborhood result
(`dimensionality.py` lines 188-217, common to all three selectors): given
that the similarity dispatch found the word (producing neighbor list `L`),
that the query has a retrievable vector `v0`, and that every neighbor word
is a vocabulary word, the result starts with the raw query at similarity 1
and its tail consists of normalized vocabulary words; the router's first
point compares the raw query against its normalization. -/
theorem neighborhood_nonempty_shape (M : Models)
    (tsneFn : List (List ℚ) → Int → Option (List (ℚ × ℚ)))
    (pcaFn : List (List ℚ) → List (ℚ × ℚ))
    (word model_type method : String) (nn : Nat) (p : Int)
    (L : List (String × ℚ)) (v0 : List ℚ)
    (hgs : get_similar_words M word model_type nn = (L, true, none))
    (hv0 : get_word_vector M word model_type = some v0)
    (hLmem : ∀ q ∈ L, q.1 ∈ vocabOf M model_type)
    (hnorm : ∀ w ∈ vocabOf M model_type, pyNormalize w = w)
    (hne : (get_word_neighborhood M tsneFn pcaFn word model_type method nn p).2.1 ≠ []) :
    (get_word_neighborhood M tsneFn pcaFn word model_type method nn p).2.1.head? =
      some word ∧
    (get_word_neighborhood M tsneFn pcaFn word model_type method nn p).2.2.head? =
      some 1 ∧
    (∀ w ∈ (get_word_neighborhood M tsneFn pcaFn word model_type method nn p).2.1.tail,
        w ∈ vocabOf M model_type ∧ pyNormalize w = w) ∧
    ((neighborhood_points
        (get_word_neighborhood M tsneFn pcaFn word model_type method nn p).1
        (get_word_neighborhood M tsneFn pcaFn word model_type method nn p).2.1
        (get_word_neighborhood M tsneFn pcaFn word model_type method nn p).2.2
        word).head?.map NPoint.is_query = some (word == pyNormalize word)) ∧
    (((neighborhood_points
        (get_word_neighborhood M tsneFn pcaFn word model_type method nn p).1
        (get_word_neighborhood M tsneFn pcaFn word model_type method nn p).2.1
        (get_word_neighborhood M tsneFn pcaFn word model_type method nn p).2.2
        word).head?.map NPoint.is_query = some true) ↔ word = pyNormalize word) ∧
    ((neighborhood_points
        (get_word_neighborhood M tsneFn pcaFn word model_type method nn p).1
        (get_word_neighborhood M tsneFn pcaFn word model_type method nn p).2.1
        (get_word_neighborhood M tsneFn pcaFn word model_type method nn p).2.2
        word).head?.map NPoint.similarity = some 1) := by
  have hcons :
      ((word :: L.map Prod.fst).zip ((1 : ℚ) :: L.map Prod.snd)).filterMap
        (fun ws => (get_word_vector M ws.1 model_type).map (fun v => (v, ws.1, ws.2))) =
      (v0, word, (1 : ℚ)) ::
        ((L.map Prod.fst).zip (L.map Prod.snd)).filterMap
          (fun ws => (get_word_vector M ws.1 model_type).map (fun v => (v, ws.1, ws.2))) := by
    rw [List.zip_cons_cons, List.filterMap_cons_some]
    rw [hv0]
    rfl
  have hrest : ∀ t ∈ ((L.map Prod.fst).zip (L.map Prod.snd)).filterMap
      (fun ws => (get_word_vector M ws.1 model_type).map (fun v => (v, ws.1, ws.2))),
      t.2.1 ∈ vocabOf M model_type := by
    intro t ht
    obtain ⟨a, ha, hfa⟩ := List.mem_filterMap.mp ht
    obtain ⟨a1, a2⟩ := a
    obtain ⟨ha1, _⟩ := List.of_mem_zip ha
    rw [Option.map_eq_some'] at hfa
    obtain ⟨v, _, hveq⟩ := hfa
    rw [← hveq]
    obtain ⟨q, hq, rfl⟩ := List.mem_map.mp ha1
    exact hLmem q hq
  have hbranch :
      get_word_neighborhood M tsneFn pcaFn word model_type method nn p = ([], [], []) ∨
      ((get_word_neighborhood M tsneFn pcaFn word model_type method nn p).2.1 =
        word :: (((L.map Prod.fst).zip (L.map Prod.snd)).filterMap
          (fun ws => (get_word_vector M ws.1 model_type).map
            (fun v => (v, ws.1, ws.2)))).map (fun t => t.2.1) ∧
       (get_word_neighborhood M tsneFn pcaFn word model_type method nn p).2.2 =
        (1 : ℚ) :: (((L.map Prod.fst).zip (L.map Prod.snd)).filterMap
          (fun ws => (get_word_vector M ws.1 model_type).map
            (fun v => (v, ws.1, ws.2)))).map (fun t => t.2.2)) := by
    simp only [get_word_neighborhood, hgs]
    rw [hcons]
    split
    · exact Or.inl rfl
    · split
      · exact Or.inl rfl
      · exact Or.inr ⟨rfl, rfl⟩
  rcases hbranch with hempty | ⟨h21, h22⟩
  · exact absurd (congrArg (fun t => t.2.1) hempty) hne
  · have hpts : (neighborhood_points
        (get_word_neighborhood M tsneFn pcaFn word model_type method nn p).1
        (get_word_neighborhood M tsneFn pcaFn word model_type method nn p).2.1
        (get_word_neighborhood M tsneFn pcaFn word model_type method nn p).2.2
        word).head? =
        some { word := word
               x := ((get_word_neighborhood M tsneFn pcaFn word model_type method nn p).1.getD
                 0 (0, 0)).1
               y := ((get_word_neighborhood M tsneFn pcaFn word model_type method nn p).1.getD
                 0 (0, 0)).2
               similarity := round4 1
               is_query := word == pyNormalize word } := by
      rw [neighborhood_points, h21, h22, List.zip_cons_cons, List.mapIdx_cons,
        List.head?_cons]
    refine ⟨?_, ?_, ?_, ?_, ?_, ?_⟩
    · rw [h21]
      rfl
    · rw [h22]
      rfl
    · intro w hw
      rw [h21] at hw
      simp only [List.tail_cons] at hw
      obtain ⟨t, ht, rfl⟩ := List.mem_map.mp hw
      exact ⟨hrest t ht, hnorm _ (hrest t ht)⟩
    · rw [hpts]
      rfl
    · rw [hpts]
      simp [beq_iff_eq]
    · rw [hpts]
      simp [round4_one]

/-- C9: for every valid model selector, every non-empty neighborhood result
starts with the query string exactly as passed in (not lowercased or
trimmed) with similarity exactly 1.0, while all following entries are
normalized vocabulary words; consequently the router\x27s `is_query` flag —
which compares each returned word to the lowercased-and-trimmed query — is
true for the first point if and only if the caller\x27s query string was
already lowercase and trimmed.  The hypotheses are the spec\x27s data model
(one row per TF-IDF vocabulary entry, vocabulary words normalized) plus the
contract of gensim\x27s `most_similar`, the opaque routine the neural paths
delegate to: its results are vocabulary keys. -/
theorem neighborhood_first_point_raw_query (M : Models)
    (tsneFn : List (List ℚ) → Int → Option (List (ℚ × ℚ)))
    (pcaFn : List (List ℚ) → List (ℚ × ℚ))
    (word model_type method : String) (nn : Nat) (p : Int)
    (hmt : model_type ∈ modelTypeKeys)
    (hlen : M.tfidf.rows.length = M.tfidf.words.length)
    (hnorm : ∀ w ∈ vocabOf M model_type, pyNormalize w = w)
    (hmsc : ∀ (w : String) (n : Nat), ∀ q ∈ M.cbow.mostSimilar w n, q.1 ∈ M.cbow.keys)
    (hmss : ∀ (w : String) (n : Nat), ∀ q ∈ M.skipgram.mostSimilar w n,
      q.1 ∈ M.skipgram.keys)
    (hne : (get_word_neighborhood M tsneFn pcaFn word model_type method nn p).2.1 ≠ []) :
    (get_word_neighborhood M tsneFn pcaFn word model_type method nn p).2.1.head? =
      some word ∧
    (get_word_neighborhood M tsneFn pcaFn word model_type method nn p).2.2.head? =
      some 1 ∧
    (∀ w ∈ (get_word_neighborhood M tsneFn pcaFn word model_type method nn p).2.1.tail,
        w ∈ vocabOf M model_type ∧ pyNormalize w = w) ∧
    ((neighborhood_points
        (get_word_neighborhood M tsneFn pcaFn word model_type method nn p).1
        (get_word_neighborhood M tsneFn pcaFn word model_type method nn p).2.1
        (get_word_neighborhood M tsneFn pcaFn word model_type method nn p).2.2
        word).head?.map NPoint.is_query = some (word == pyNormalize word)) ∧
    (((neighborhood_points
        (get_word_neighborhood M tsneFn pcaFn word model_type method nn p).1
        (get_word_neighborhood M tsneFn pcaFn word model_type method nn p).2.1
        (get_word_neighborhood M tsneFn pcaFn word model_type method nn p).2.2
        word).head?.map NPoint.is_query = some true) ↔ word = pyNormalize word) ∧
    ((neighborhood_points
        (get_word_neighborhood M tsneFn pcaFn word model_type method nn p).1
        (get_word_neighborhood M tsneFn pcaFn word model_type method nn p).2.1
        (get_word_neighborhood M tsneFn pcaFn word model_type method nn p).2.2
        word).head?.map NPoint.similarity = some 1) := by
  simp only [modelTypeKeys, List.mem_cons, List.mem_singleton] at hmt
  rcases hmt with rfl | rfl | hmt
  · by_cases hmem : pyNormalize word ∈ M.tfidf.words
    · refine neighborhood_nonempty_shape M tsneFn pcaFn word "tfidf" method nn p
        (get_similar_words_tfidf M word nn).1
        (M.tfidf.rows.getD (M.tfidf.words.indexOf (pyNormalize word)) [])
        ?_ ?_ ?_ hnorm hne
      · simp [get_similar_words, get_similar_words_tfidf, hmem]
      · simp [get_word_vector, hmem]
      · intro q hq
        simpa [vocabOf] using tfidf_result_words_mem M word nn hlen q hq
    · exfalso
      apply hne
      simp [get_word_neighborhood, get_similar_words, get_similar_words_tfidf, hmem]
  · by_cases hmem : pyNormalize word ∈ M.cbow.keys
    · refine neighborhood_nonempty_shape M tsneFn pcaFn word "word2vec_cbow" method nn p
        (M.cbow.mostSimilar (pyNormalize word) nn) (M.cbow.vecs (pyNormalize word))
        ?_ ?_ ?_ hnorm hne
      · simp [get_similar_words, get_similar_words_word2vec, hmem]
      · simp [get_word_vector, hmem]
      · intro q hq
        simpa [vocabOf] using hmsc (pyNormalize word) nn q hq
    · exfalso
      apply hne
      simp [get_word_neighborhood, get_similar_words, get_similar_words_word2vec, hmem]
  · rcases hmt with rfl | hmt
    · by_cases hmem : pyNormalize word ∈ M.skipgram.keys
      · refine neighborhood_nonempty_shape M tsneFn pcaFn word "word2vec_skipgram" method
          nn p (M.skipgram.mostSimilar (pyNormalize word) nn)
          (M.skipgram.vecs (pyNormalize word)) ?_ ?_ ?_ hnorm hne
        · simp [get_similar_words, get_similar_words_word2vec, hmem]
        · simp [get_word_vector, hmem]
        · intro q hq
          simpa [vocabOf] using hmss (pyNormalize word) nn q hq
      · exfalso
        apply hne
        simp [get_word_neighborhood, get_similar_words, get_similar_words_word2vec, hmem]
    · cases hmt

/-- A Word2Vec demonstration model whose neighbor search is non-trivial and
stays inside its own key set. -/
def demoW2Vb : W2VModel :=
  { keys := ["cat", "dog"], vecs := fun _ => [1], mostSimilar := fun _ _ => [("dog", 9)] }

/-- Demonstration bundle for the C9 witness, exercising both the TF-IDF and
a Word2Vec selector. -/
def demoModelsB : Models :=
  { tfidf := { words := ["cat", "dog", "fish"], rows := [[10, 0], [9, 1], [0, 10]] }
    cbow := demoW2Vb
    skipgram := demoW2Vb
    freqs := [("cat", 3), ("dog", 2), ("fish", 1)]
    cosSim := fun u v => if v = u then 10 else if v = [9, 1] then 9 else 0 }

/-- Witness for C9: the neighborhood of "cat" is non-empty on both the
TF-IDF and the word2vec_cbow selectors; each result starts with the raw
query, and the first point\x27s `is_query` flag is true exactly because "cat"
is already normalized. -/
theorem neighborhood_first_point_raw_query_witness :
    (("tfidf" ∈ modelTypeKeys ∧
      demoModelsB.tfidf.rows.length = demoModelsB.tfidf.words.length ∧
      (∀ w ∈ vocabOf demoModelsB "tfidf", pyNormalize w = w) ∧
      (get_word_neighborhood demoModelsB tsneStub pcaStub "cat" "tfidf" "pca" 2 30).2.1 ≠ []) ∧
     (get_word_neighborhood demoModelsB tsneStub pcaStub "cat" "tfidf" "pca" 2 30).2.1.head? =
       some "cat" ∧
     (((neighborhood_points
         (get_word_neighborhood demoModelsB tsneStub pcaStub "cat" "tfidf" "pca" 2 30).1
         (get_word_neighborhood demoModelsB tsneStub pcaStub "cat" "tfidf" "pca" 2 30).2.1
         (get_word_neighborhood demoModelsB tsneStub pcaStub "cat" "tfidf" "pca" 2 30).2.2
         "cat").head?.map NPoint.is_query = some true) ↔ "cat" = pyNormalize "cat")) ∧
    (("word2vec_cbow" ∈ modelTypeKeys ∧
      (∀ w ∈ vocabOf demoModelsB "word2vec_cbow", pyNormalize w = w) ∧
      (get_word_neighborhood demoModelsB tsneStub pcaStub "cat" "word2vec_cbow" "pca" 2
        30).2.1 ≠ []) ∧
     (get_word_neighborhood demoModelsB tsneStub pcaStub "cat" "word2vec_cbow" "pca" 2
       30).2.1.head? = some "cat" ∧
     (((neighborhood_points
         (get_word_neighborhood demoModelsB tsneStub pcaStub "cat" "word2vec_cbow" "pca"
           2 30).1
         (get_word_neighborhood demoModelsB tsneStub pcaStub "cat" "word2vec_cbow" "pca"
           2 30).2.1
         (get_word_neighborhood demoModelsB tsneStub pcaStub "cat" "word2vec_cbow" "pca"
           2 30).2.2
         "cat").head?.map NPoint.is_query = some true) ↔ "cat" = pyNormalize "cat")) :=
  ⟨⟨⟨by decide, by decide, by decide, by decide⟩,
    (neighborhood_first_point_raw_query demoModelsB tsneStub pcaStub "cat" "tfidf" "pca"
      2 30 (by decide) (by decide) (by decide) (by
        intro w n q hq
        simp [demoModelsB, demoW2Vb] at hq
        subst hq
        decide)
      (by
        intro w n q hq
        simp [demoModelsB, demoW2Vb] at hq
        subst hq
        decide) (by decide)).1,
    (neighborhood_first_point_raw_query demoModelsB tsneStub pcaStub "cat" "tfidf" "pca"
      2 30 (by decide) (by decide) (by decide) (by
        intro w n q hq
        simp [demoModelsB, demoW2Vb] at hq
        subst hq
        decide)
      (by
        intro w n q hq
        simp [demoModelsB, demoW2Vb] at hq
        subst hq
        decide) (by decide)).2.2.2.2.1⟩,
   ⟨⟨by decide, by decide, by decide⟩,
    (neighborhood_first_point_raw_query demoModelsB tsneStub pcaStub "cat"
      "word2vec_cbow" "pca" 2 30 (by decide) (by decide) (by decide)
      (by
        intro w n q hq
        simp [demoModelsB, demoW2Vb] at hq
        subst hq
        decide)
      (by
        intro w n q hq
        simp [demoModelsB, demoW2Vb] at hq
        subst hq
        decide) (by decide)).1,
    (neighborhood_first_point_raw_query demoModelsB tsneStub pcaStub "cat"
      "word2vec_cbow" "pca" 2 30 (by decide) (by decide) (by decide)
      (by
        intro w n q hq
        simp [demoModelsB, demoW2Vb] at hq
        subst hq
        decide)
      (by
        intro w n q hq
        simp [demoModelsB, demoW2Vb] at hq
        subst hq
        decide) (by decide)).2.2.2.2.1⟩⟩

end EmbeddingVisualizer
